import Mathlib

/-!
Shallow embedding of the jeni dependency-injection engine
(`jeni.py`, `jeni_decoration.py`): note parsing, the class-hierarchy
provider registry, provider materialization and caching inside an
`Injector`, close semantics, fulfillment of positional/keyword notes,
and the decoration layer.  Python dicts are modelled as
insertion-ordered association lists, Python exceptions as an `Except`
error type, and the observable provider lifecycle as an event trace.
-/

namespace Jeni

/-- Insertion-ordered dictionary lookup (Python `d[k]` / `k in d`). -/
def dget {K V : Type} [DecidableEq K] : List (K × V) → K → Option V
  | [], _ => none
  | (k', v') :: rest, k => if k' = k then some v' else dget rest k

/-- Insertion-ordered dictionary update (Python `d[k] = v`): an existing
key keeps its position, a new key is appended. -/
def dset {K V : Type} [DecidableEq K] : List (K × V) → K → V → List (K × V)
  | [], k, v => [(k, v)]
  | (k', v') :: rest, k, v =>
      if k' = k then (k, v) :: rest else (k', v') :: dset rest k v

/-- Python values as far as the injector inspects them: `None`, strings
(lists of characters), numbers, and tuples.  Notes, names and provided
values all live here. -/
inductive PyVal : Type where
  | vnone : PyVal
  | vstr : List Char → PyVal
  | vnat : Nat → PyVal
  | vtup : List PyVal → PyVal

mutual

/-- Decidable equality on `PyVal` (hand-rolled: the nested `List PyVal`
in `vtup` defeats automatic derivation). -/
def PyVal.decEq : (a b : PyVal) → Decidable (a = b)
  | .vnone, .vnone => isTrue rfl
  | .vnone, .vstr _ => isFalse (fun h => PyVal.noConfusion h)
  | .vnone, .vnat _ => isFalse (fun h => PyVal.noConfusion h)
  | .vnone, .vtup _ => isFalse (fun h => PyVal.noConfusion h)
  | .vstr _, .vnone => isFalse (fun h => PyVal.noConfusion h)
  | .vstr a, .vstr b =>
      if h : a = b then isTrue (congrArg PyVal.vstr h)
      else isFalse (fun hh => h (by injection hh))
  | .vstr _, .vnat _ => isFalse (fun h => PyVal.noConfusion h)
  | .vstr _, .vtup _ => isFalse (fun h => PyVal.noConfusion h)
  | .vnat _, .vnone => isFalse (fun h => PyVal.noConfusion h)
  | .vnat _, .vstr _ => isFalse (fun h => PyVal.noConfusion h)
  | .vnat a, .vnat b =>
      if h : a = b then isTrue (congrArg PyVal.vnat h)
      else isFalse (fun hh => h (by injection hh))
  | .vnat _, .vtup _ => isFalse (fun h => PyVal.noConfusion h)
  | .vtup _, .vnone => isFalse (fun h => PyVal.noConfusion h)
  | .vtup _, .vstr _ => isFalse (fun h => PyVal.noConfusion h)
  | .vtup _, .vnat _ => isFalse (fun h => PyVal.noConfusion h)
  | .vtup a, .vtup b =>
      match PyVal.decEqList a b with
      | isTrue h => isTrue (congrArg PyVal.vtup h)
      | isFalse h => isFalse (fun hh => h (by injection hh))

/-- Decidable equality on lists of `PyVal`, mutual with `PyVal.decEq`. -/
def PyVal.decEqList : (as bs : List PyVal) → Decidable (as = bs)
  | [], [] => isTrue rfl
  | [], _ :: _ => isFalse (fun h => List.noConfusion h)
  | _ :: _, [] => isFalse (fun h => List.noConfusion h)
  | a :: as, b :: bs =>
      match PyVal.decEq a b, PyVal.decEqList as bs with
      | isTrue h1, isTrue h2 => isTrue (by rw [h1, h2])
      | isFalse h1, _ => isFalse (fun hh => h1 (by injection hh))
      | _, isFalse h2 => isFalse (fun hh => h2 (by injection hh))

end

instance : DecidableEq PyVal := PyVal.decEq

/-- The Python exceptions raised by the embedded code.  `unsetError`
carries the `note` attribute (set to `vnone` when absent, matching the
`None` default of `UnsetError.__init__`). -/
inductive PyErr : Type where
  | unsetError (note : PyVal)
  | typeError
  | valueError
  | attributeError
  | lookupError
  | runtimeError
deriving DecidableEq

/-- Decidable equality for `Except` results, used to evaluate the
embedded operations on concrete inputs. -/
instance {ε α : Type} [DecidableEq ε] [DecidableEq α] : DecidableEq (Except ε α) :=
  fun a b =>
    match a, b with
    | .ok x, .ok y =>
        if h : x = y then isTrue (by rw [h])
        else isFalse (fun hh => h (by injection hh))
    | .error x, .error y =>
        if h : x = y then isTrue (by rw [h])
        else isFalse (fun hh => h (by injection hh))
    | .ok _, .error _ => isFalse (fun h => Except.noConfusion h)
    | .error _, .ok _ => isFalse (fun h => Except.noConfusion h)

/-- The greedy group `(.*)` of `re_note` followed by `$`, applied to the
text after the first matched `:`.  With Python's default flags `.` does
not match a newline and `$` matches at the end of the string or just
before one trailing newline, so the group matches the whole remainder
when it is newline-free, drops a single trailing newline, and fails
otherwise. -/
def nameMatch (rest : List Char) : Option (List Char) :=
  if '\n' ∈ rest then
    if rest.getLast? = some '\n' ∧ '\n' ∉ rest.dropLast then some rest.dropLast
    else none
  else some rest

/-- `re.match` of `re_note = ^(.*?)(?::(.*))?$` on a string: the lazy
base group grows one (non-newline) character at a time; at each
position the engine first tries the optional `:(.*)` group, then the
end anchor (which also accepts a single trailing newline).  Returns the
two groups on success, `none` when the regex does not match. -/
def reMatchCore : List Char → Option (List Char × Option (List Char))
  | [] => some ([], none)
  | c :: rest =>
      if c = ':' then
        match nameMatch rest with
        | some nm => some ([], some nm)
        | none => (reMatchCore rest).map (fun bn => (c :: bn.1, bn.2))
      else if c = '\n' then
        if rest = [] then some ([], none) else none
      else (reMatchCore rest).map (fun bn => (c :: bn.1, bn.2))

/-- `Injector.parse_note`: tuples must have exactly two elements and are
returned as `(base, name)`; strings go through `re_note` (a failed match
leaves `match` as `None`, so `.groups()` raises `AttributeError`); any
other object is returned verbatim with name `None`. -/
def parse_note (note : PyVal) : Except PyErr (PyVal × PyVal) :=
  match note with
  | .vtup l =>
      match l with
      | [a, b] => .ok (a, b)
      | _ => .error .valueError
  | .vstr s =>
      match reMatchCore s with
      | some (b, some nm) => .ok (.vstr b, .vstr nm)
      | some (b, none) => .ok (.vstr b, .vnone)
      | none => .error .attributeError
  | v => .ok (v, .vnone)

/-- The behaviour of a Python callable as the injector invokes it: it is
called either with no argument (modelled as name `vnone`) or with a
keyword `name`, and returns a value or raises. -/
def PyFun : Type := PyVal → Except PyErr PyVal

/-- The observable behaviour of a provider object (an instance with a
`get` method and a `close` method, cf. the `Provider` interface). -/
structure ProvBeh : Type where
  get : PyFun
  close : Except PyErr Unit

/-- The behaviour of a user generator function, abstracted to what
`GeneratorProvider` observes of the generator it creates:
`firstYield` is the first `next()` (none = `StopIteration`);
`sendYield` is the value produced by `generator.send(name)` (none =
`StopIteration`); `closeOk` is whether `generator.close()` returns
normally; `resumeStops` is whether a bare `next()` after the first
yield raises `StopIteration` (the generator is exhausted). -/
structure GenFun : Type where
  support_name : Bool
  firstYield : Option PyVal
  sendYield : PyVal → Option PyVal
  closeOk : Bool
  resumeStops : Bool

/-- A `GeneratorProvider` after `init` has run: it remembers the
function, the `support_name` flag and the `init_value` fixed by the
first yield. -/
structure GeneratorProvider : Type where
  function : GenFun
  support_name : Bool
  init_value : PyVal

/-- `GeneratorProvider.__init__` followed by `GeneratorProvider.init`:
the generator is started; if it does not yield, a `RuntimeError` is
raised, otherwise the first yielded value becomes `init_value` and is
returned. -/
def GeneratorProvider.init (g : GenFun) : Except PyErr (GeneratorProvider × PyVal) :=
  match g.firstYield with
  | none => .error .runtimeError
  | some v => .ok (⟨g, g.support_name, v⟩, v)

/-- `GeneratorProvider.get`: with no name, the `init_value` is returned;
with a name but no name support a `TypeError` is raised; otherwise the
name is sent into the generator, a `StopIteration` becoming a
`RuntimeError`. -/
def GeneratorProvider.get (p : GeneratorProvider) (name : PyVal) : Except PyErr PyVal :=
  if name = .vnone then .ok p.init_value
  else if p.support_name = false then .error .typeError
  else
    match p.function.sendYield name with
    | some v => .ok v
    | none => .error .runtimeError

/-- `GeneratorProvider.close`: with name support the generator is
closed (`generator.close()` raises `RuntimeError` if the generator
yields while closing), after which `next` raises `StopIteration` and
`close` returns; without name support the generator is resumed with
`next` and must stop, else a `RuntimeError` is raised. -/
def GeneratorProvider.close (p : GeneratorProvider) : Except PyErr Unit :=
  if p.support_name then
    if p.function.closeOk then .ok () else .error .runtimeError
  else if p.function.resumeStops then .ok () else .error .runtimeError

/-- A provider descriptor as stored in `provider_registry`: a provider
class (`inspect.isclass`), a generator function
(`inspect.isgeneratorfunction`), an object that already has a `get`
attribute, or a plain callable. -/
inductive Desc : Type where
  | cls (mk : ProvBeh)
  | genfn (g : GenFun)
  | obj (b : ProvBeh)
  | fn (f : PyFun)

/-- A materialized provider cached in `Injector.instances`: either a
`GeneratorProvider` or a provider object. -/
inductive Inst : Type where
  | gp (p : GeneratorProvider)
  | ob (b : ProvBeh)

/-- The `get` bound method of a materialized provider. -/
def Inst.getFn : Inst → PyFun
  | .gp p => fun name => GeneratorProvider.get p name
  | .ob b => b.get

/-- The `close` method of a materialized provider. -/
def Inst.close : Inst → Except PyErr Unit
  | .gp p => p.close
  | .ob b => b.close

/-- Decoration modes of `jeni_decoration`: `DECORATE` replaces the
value, `CONFIGURE` discards the step's return value. -/
inductive Mode : Type where
  | decorate
  | configure
deriving DecidableEq

/-- A decoration step.  Steps are modelled as plain (unannotated)
callables, so the `self.has_annotations(fn)` test in `decorators_iter`
is `False` and the step is yielded as-is. -/
def Step : Type := PyVal → PyVal

/-- Classes of the injector hierarchy are identified by numbers. -/
abbrev ClassId := Nat

/-- The method resolution order of each class (`cls.mro()`), fixed by
the class hierarchy; the list starts with the class itself. -/
abbrev Mro : Type := ClassId → List ClassId

/-- The class-level mutable state: each class optionally owns a
`provider_registry` (created on first `register` for that class) and a
`decorator_registry` (created on first `decorate`).  `none` models a
class on which the attribute was never created. -/
structure RegState : Type where
  provider_registry : ClassId → Option (List (PyVal × Desc))
  decorator_registry : ClassId → Option (List ((PyVal × PyVal) × List (Mode × Step)))

/-- The state before any registration: no class owns either registry. -/
def emptyReg : RegState := ⟨fun _ => none, fun _ => none⟩

/-- `Injector.register`: parse the note, create the class's own
registry if absent, and store the provider under the base note alone
(the name part is discarded). -/
def register (reg : RegState) (cls : ClassId) (note : PyVal) (provider : Desc) :
    Except PyErr RegState :=
  match parse_note note with
  | .error e => .error e
  | .ok (basenote, _name) =>
      let tbl := (reg.provider_registry cls).getD []
      .ok { reg with provider_registry :=
              fun c => if c = cls then some (dset tbl basenote provider)
                       else reg.provider_registry c }

/-- `Injector.lookup`: walk the method resolution order, skipping
classes without their own `provider_registry`, and return the first
registration found for the base note; raise `LookupError` if none. -/
def lookup (mro : Mro) (reg : RegState) (cls : ClassId) (basenote : PyVal) :
    Except PyErr Desc :=
  match (mro cls).findSome?
      (fun c => (reg.provider_registry c).bind (fun tbl => dget tbl basenote)) with
  | some p => .ok p
  | none => .error .lookupError

/-- `DecoratingInjector.decorate`: parse the note, reject configure
mode on a named note, create the class's own decorator registry if
absent, and append `(mode, fn)` to the list stored under
`(basenote, name)`. -/
def decorate (reg : RegState) (cls : ClassId) (note : PyVal) (mode : Mode) (fn : Step) :
    Except PyErr RegState :=
  match parse_note note with
  | .error e => .error e
  | .ok (basenote, name) =>
      if mode = .configure ∧ name ≠ .vnone then .error .valueError
      else
        let tbl := (reg.decorator_registry cls).getD []
        let entry := (dget tbl (basenote, name)).getD []
        .ok { reg with decorator_registry :=
                fun c => if c = cls then
                           some (dset tbl (basenote, name) (entry ++ [(mode, fn)]))
                         else reg.decorator_registry c }

/-- `DecoratingInjector.configure`: `decorate` in configure mode. -/
def configure (reg : RegState) (cls : ClassId) (note : PyVal) (fn : Step) :
    Except PyErr RegState :=
  decorate reg cls note .configure fn

/-- `DecoratingInjector.decorators_iter`: walk the method resolution
order in reverse (root first), skipping classes without their own
decorator registry, and yield the `(mode, fn)` entries registered under
`(basenote, name)` in registration order. -/
def decorators_iter (mro : Mro) (reg : RegState) (cls : ClassId)
    (basenote name : PyVal) : List (Mode × Step) :=
  ((mro cls).reverse).flatMap (fun c =>
    match reg.decorator_registry c with
    | none => []
    | some tbl => (dget tbl (basenote, name)).getD [])

/-- `DecoratingInjector.decorators_apply`: fold the decorators over the
value; a decorate-mode step's result replaces the value, a
configure-mode step is run for effect and the value is kept. -/
def decorators_apply (mro : Mro) (reg : RegState) (cls : ClassId)
    (basenote name : PyVal) (value : PyVal) : PyVal :=
  (decorators_iter mro reg cls basenote name).foldl
    (fun value mf =>
      match mf.1 with
      | .decorate => mf.2 value
      | .configure => value)
    value

/-- Observable provider-lifecycle events, recorded in order: a
generator provider's `init`, an invocation of a provider's `get` (or of
a plain factory callable) with the given name, and a provider's
`close`. -/
inductive Event : Type where
  | initCall (basenote : PyVal)
  | getCall (basenote : PyVal) (name : PyVal)
  | closeCall (basenote : PyVal)
deriving DecidableEq

/-- The per-instance state of an `Injector`: its class (for registry
lookups), the `closed` flag, and the `instances` and `values` caches
(insertion-ordered dictionaries). -/
structure Injector : Type where
  cls : ClassId
  closed : Bool
  instances : List (PyVal × Inst)
  values : List (PyVal × PyVal)

/-- The result of running an injector operation: the value or the
exception, the injector state after the run (Python mutations performed
before an exception persist), and the provider events that occurred. -/
structure Outcome (α : Type) : Type where
  res : Except PyErr α
  st : Injector
  tr : List Event

/-- The `except UnsetError` clause of `handle_provider`: an
`UnsetError` gets its `note` attribute set to the resolved note and is
re-raised; every other exception propagates unchanged. -/
def reraiseWithNote (note : PyVal) : PyErr → PyErr
  | .unsetError _ => .unsetError note
  | e => e

/-- The invocation step of `handle_provider` (its `try` block): with no
name the callable is invoked bare and a successful value is cached in
`values[basenote]`; with a name it is invoked as `fn(name=name)` and
nothing is cached.  An `UnsetError` is re-raised with the note
attached. -/
def invokeGet (st : Injector) (tr : List Event) (note basenote name : PyVal)
    (fn : PyFun) : Outcome PyVal :=
  if name = .vnone then
    match fn .vnone with
    | .ok value =>
        ⟨.ok value, { st with values := dset st.values basenote value },
         tr ++ [.getCall basenote .vnone]⟩
    | .error e => ⟨.error (reraiseWithNote note e), st, tr ++ [.getCall basenote .vnone]⟩
  else
    match fn name with
    | .ok value => ⟨.ok value, st, tr ++ [.getCall basenote name]⟩
    | .error e => ⟨.error (reraiseWithNote note e), st, tr ++ [.getCall basenote name]⟩

/-- `Injector.handle_provider`: use the cached instance if one exists;
otherwise materialize a class into `instances`, or run a generator
function's `init` (caching the provider in `instances` and the initial
value in `values`, returning it at once for unnamed access); a plain
callable or an object with `get` is used without caching an instance.
Finally the chosen callable (`provider.get` or the callable itself) is
invoked via `invokeGet`. -/
def handle_provider (st : Injector) (provider_or_fn : Desc)
    (note basenote name : PyVal) : Outcome PyVal :=
  match dget st.instances basenote with
  | some inst => invokeGet st [] note basenote name inst.getFn
  | none =>
      match provider_or_fn with
      | .cls mk =>
          let st' := { st with instances := dset st.instances basenote (.ob mk) }
          invokeGet st' [] note basenote name (Inst.ob mk).getFn
      | .genfn g =>
          match GeneratorProvider.init g with
          | .error e => ⟨.error e, st, [.initCall basenote]⟩
          | .ok (p, value) =>
              let st' := { st with
                           instances := dset st.instances basenote (.gp p),
                           values := dset st.values basenote value }
              if name = .vnone then ⟨.ok value, st', [.initCall basenote]⟩
              else invokeGet st' [.initCall basenote] note basenote name (Inst.gp p).getFn
      | .obj b => invokeGet st [] note basenote name b.get
      | .fn f => invokeGet st [] note basenote name f

/-- `Injector.resolve`: parse the note; with no name and a cached
unnamed value return it immediately; otherwise look up the registry
(re-raising a `LookupError`) and hand off to `handle_provider`. -/
def resolve (mro : Mro) (reg : RegState) (st : Injector) (note : PyVal) :
    Outcome PyVal :=
  match parse_note note with
  | .error e => ⟨.error e, st, []⟩
  | .ok (basenote, name) =>
      if name = .vnone ∧ dget st.values basenote ≠ none then
        ⟨.ok ((dget st.values basenote).getD .vnone), st, []⟩
      else
        match lookup mro reg st.cls basenote with
        | .error _ => ⟨.error .lookupError, st, []⟩
        | .ok provider_or_fn => handle_provider st provider_or_fn note basenote name

/-- The `for provider in self.instances.values(): provider.close()`
loop of `Injector.close`: each materialized provider is closed in
insertion order; an exception propagates at once, leaving the state
unchanged and the remaining providers unclosed. -/
def close_loop (st : Injector) : List (PyVal × Inst) → List Event → Outcome Unit
  | [], tr => ⟨.ok (), { st with closed := true }, tr⟩
  | (k, inst) :: rest, tr =>
      match Inst.close inst with
      | .ok _ => close_loop st rest (tr ++ [.closeCall k])
      | .error e => ⟨.error e, st, tr ++ [.closeCall k]⟩

/-- `Injector.close`: raise `RuntimeError` if already closed, otherwise
close every materialized provider in order and set `closed`. -/
def Injector.close (st : Injector) : Outcome Unit :=
  if st.closed then ⟨.error .runtimeError, st, []⟩
  else close_loop st st.instances []

/-- The `args` half of `Injector.fulfill`: resolve every positional
note eagerly, in order; the first exception aborts the whole
fulfillment. -/
def resolve_args (mro : Mro) (reg : RegState) (st : Injector) :
    List PyVal → Outcome (List PyVal)
  | [] => ⟨.ok [], st, []⟩
  | note :: rest =>
      let o := resolve mro reg st note
      match o.res with
      | .error e => ⟨.error e, o.st, o.tr⟩
      | .ok v =>
          let o2 := resolve_args mro reg o.st rest
          ⟨o2.res.map (fun vs => v :: vs), o2.st, o.tr ++ o2.tr⟩

/-- The `kwargs` half of `Injector.fulfill`: resolve each keyword note
in order, binding successful values into the accumulated dictionary; an
`UnsetError` is caught and the argument silently omitted; any other
exception propagates. -/
def fulfill_kwargs (mro : Mro) (reg : RegState) (st : Injector)
    (acc : List (String × PyVal)) :
    List (String × PyVal) → Outcome (List (String × PyVal))
  | [] => ⟨.ok acc, st, []⟩
  | (arg, note) :: rest =>
      let o := resolve mro reg st note
      match o.res with
      | .ok v =>
          let o2 := fulfill_kwargs mro reg o.st (dset acc arg v) rest
          ⟨o2.res, o2.st, o.tr ++ o2.tr⟩
      | .error (.unsetError _) =>
          let o2 := fulfill_kwargs mro reg o.st acc rest
          ⟨o2.res, o2.st, o.tr ++ o2.tr⟩
      | .error e => ⟨.error e, o.st, o.tr⟩

/-- `Injector.fulfill`: positional notes first (eagerly), then keyword
notes with the unset-omission policy. -/
def fulfill (mro : Mro) (reg : RegState) (st : Injector) (notes : List PyVal)
    (keyword_notes : List (String × PyVal)) :
    Outcome (List PyVal × List (String × PyVal)) :=
  let oa := resolve_args mro reg st notes
  match oa.res with
  | .error e => ⟨.error e, oa.st, oa.tr⟩
  | .ok args =>
      let okw := fulfill_kwargs mro reg oa.st [] keyword_notes
      ⟨okw.res.map (fun kw => (args, kw)), okw.st, oa.tr ++ okw.tr⟩

/-! ### Dictionary lemmas -/

theorem dget_dset_self {K V : Type} [DecidableEq K] (d : List (K × V)) (k : K) (v : V) :
    dget (dset d k v) k = some v := by
  induction d with
  | nil => simp [dset, dget]
  | cons p rest ih =>
      obtain ⟨k', v'⟩ := p
      by_cases h : k' = k
      · simp [dset, dget, h]
      · simp [dset, dget, h, ih]

theorem dget_dset_ne {K V : Type} [DecidableEq K] (d : List (K × V)) (k k' : K) (v : V)
    (h : k' ≠ k) : dget (dset d k v) k' = dget d k' := by
  induction d with
  | nil => simp [dset, dget, show ¬k = k' from fun hh => h hh.symm]
  | cons p rest ih =>
      obtain ⟨k'', v''⟩ := p
      by_cases h2 : k'' = k
      · subst h2
        simp [dset, dget, Ne.symm h, h]
      · by_cases h3 : k'' = k'
        · simp [dset, dget, h2, h3, h]
        · simp [dset, dget, h2, h3, ih]

/-! ### Lemmas about the `re_note` regex -/

theorem reMatchCore_plain (s : List Char) (hn : '\n' ∉ s) (hc : ':' ∉ s) :
    reMatchCore s = some (s, none) := by
  induction s with
  | nil => rfl
  | cons c rest ih =>
      simp only [List.mem_cons, not_or] at hn hc
      have hc1 : ¬(c = ':') := fun h => hc.1 h.symm
      have hn1 : ¬(c = '\n') := fun h => hn.1 h.symm
      simp [reMatchCore, hc1, hn1, ih hn.2 hc.2]

theorem reMatchCore_split (pre post : List Char) (hn : '\n' ∉ pre) (hc : ':' ∉ pre)
    (hp : '\n' ∉ post) :
    reMatchCore (pre ++ ':' :: post) = some (pre, some post) := by
  induction pre with
  | nil => simp [reMatchCore, nameMatch, hp]
  | cons c rest ih =>
      simp only [List.mem_cons, not_or] at hn hc
      have hc1 : ¬(c = ':') := fun h => hc.1 h.symm
      have hn1 : ¬(c = '\n') := fun h => hn.1 h.symm
      simp [reMatchCore, hc1, hn1, ih hn.2 hc.2]

theorem nameMatch_concat_newline (rest : List Char) (hn : '\n' ∉ rest) :
    nameMatch (rest ++ ['\n']) = some rest := by
  simp [nameMatch, hn]

theorem reMatchCore_trailing (s : List Char) (hn : '\n' ∉ s) :
    reMatchCore (s ++ ['\n']) = reMatchCore s := by
  induction s with
  | nil => rfl
  | cons c rest ih =>
      simp only [List.mem_cons, not_or] at hn
      have hn1 : ¬(c = '\n') := fun h => hn.1 h.symm
      by_cases hc : c = ':'
      · subst hc
        simp [reMatchCore, nameMatch_concat_newline rest hn.2, nameMatch, hn.2]
      · simp [reMatchCore, hc, hn1, ih hn.2]

theorem nameMatch_inner_newline (rest : List Char) (hn : '\n' ∈ rest.dropLast) :
    nameMatch rest = none := by
  have hmem : '\n' ∈ rest := List.mem_of_mem_dropLast hn
  simp [nameMatch, hmem, hn]

theorem reMatchCore_cons (c : Char) (rest : List Char) :
    reMatchCore (c :: rest) =
      if c = ':' then
        match nameMatch rest with
        | some nm => some ([], some nm)
        | none => (reMatchCore rest).map (fun bn => (c :: bn.1, bn.2))
      else if c = '\n' then
        if rest = [] then some ([], none) else none
      else (reMatchCore rest).map (fun bn => (c :: bn.1, bn.2)) := rfl

theorem reMatchCore_inner_newline :
    ∀ s : List Char, '\n' ∈ s.dropLast → reMatchCore s = none := by
  intro s
  induction s with
  | nil => intro h; simp at h
  | cons c rest ih =>
      intro h
      match rest, h, ih with
      | d :: rest', h, ih =>
          rw [List.dropLast_cons₂] at h
          rcases List.mem_cons.mp h with h1 | h2
          · rw [← h1, reMatchCore_cons]
            simp
          · have hrec := ih h2
            rw [reMatchCore_cons]
            by_cases hc : c = ':'
            · simp [hc, nameMatch_inner_newline _ h2, hrec]
            · by_cases hcn : c = '\n'
              · simp [hc, hcn]
              · simp [hc, hcn, hrec]

/-! ### `parse_note` corollaries -/

theorem parse_note_plain (s : List Char) (hn : '\n' ∉ s) (hc : ':' ∉ s) :
    parse_note (.vstr s) = .ok (.vstr s, .vnone) := by
  simp [parse_note, reMatchCore_plain s hn hc]

theorem parse_note_split (pre post : List Char) (hn : '\n' ∉ pre) (hc : ':' ∉ pre)
    (hp : '\n' ∉ post) :
    parse_note (.vstr (pre ++ ':' :: post)) = .ok (.vstr pre, .vstr post) := by
  simp [parse_note, reMatchCore_split pre post hn hc hp]

/-- C9 (counterexample): the claim "a string note is split on the first
':' into (base, name); a string without ':' yields name = null" fails on
the string "a\nb": `re_note` does not match it (the lazy group cannot
cross the newline and `$` cannot anchor before 'b'), so `match` is
`None` and `match.groups()` raises `AttributeError` instead of
returning ("a\nb", None). -/
theorem parse_note_newline_cex :
    parse_note (.vstr ['a', '\n', 'b']) = .error .attributeError ∧
    parse_note (.vstr ['a', '\n', 'b']) ≠ .ok (.vstr ['a', '\n', 'b'], .vnone) := by
  decide

/-- C9 (amended): note parsing is pure and: a string containing no
newline is split on the first ':' (no ':' yields name = None); a single
trailing newline is dropped by the regex before splitting; a string
with a newline anywhere before its last character makes `parse_note`
raise `AttributeError` (the regex does not match); a 2-tuple is
returned verbatim as (base, name); a tuple of any other length raises
`ValueError`; a non-string, non-tuple note is returned verbatim as
(note, None). -/
theorem parse_note_spec :
    (∀ s : List Char, '\n' ∉ s → ':' ∉ s →
        parse_note (.vstr s) = .ok (.vstr s, .vnone))
    ∧ (∀ pre post : List Char, '\n' ∉ pre → ':' ∉ pre → '\n' ∉ post →
        parse_note (.vstr (pre ++ ':' :: post)) = .ok (.vstr pre, .vstr post))
    ∧ (∀ s : List Char, '\n' ∉ s →
        parse_note (.vstr (s ++ ['\n'])) = parse_note (.vstr s))
    ∧ (∀ s : List Char, '\n' ∈ s.dropLast →
        parse_note (.vstr s) = .error .attributeError)
    ∧ (∀ a b : PyVal, parse_note (.vtup [a, b]) = .ok (a, b))
    ∧ (∀ l : List PyVal, l.length ≠ 2 → parse_note (.vtup l) = .error .valueError)
    ∧ (∀ n : Nat, parse_note (.vnat n) = .ok (.vnat n, .vnone))
    ∧ parse_note .vnone = .ok (.vnone, .vnone) := by
  refine ⟨parse_note_plain, parse_note_split, ?_, ?_, ?_, ?_, ?_, rfl⟩
  · intro s hn
    simp [parse_note, reMatchCore_trailing s hn]
  · intro s hn
    simp [parse_note, reMatchCore_inner_newline s hn]
  · intro a b
    rfl
  · intro l h
    match l with
    | [] => rfl
    | [a] => rfl
    | [a, b] => exact absurd rfl h
    | a :: b :: c :: t => rfl
  · intro n
    rfl

/-- Witness for `parse_note_spec` at concrete inputs. -/
theorem parse_note_spec_witness :
    parse_note (.vstr ['a', 'b']) = .ok (.vstr ['a', 'b'], .vnone) ∧
    parse_note (.vstr ['a', ':', 'b']) = .ok (.vstr ['a'], .vstr ['b']) ∧
    parse_note (.vstr ['a', '\n', 'x']) = .error .attributeError ∧
    parse_note (.vtup [.vnat 1, .vnat 2, .vnat 3]) = .error .valueError := by
  refine ⟨?_, ?_, ?_, ?_⟩
  · exact parse_note_spec.1 ['a', 'b'] (by decide) (by decide)
  · exact parse_note_spec.2.1 ['a'] ['b'] (by decide) (by decide) (by decide)
  · exact parse_note_spec.2.2.2.1 ['a', '\n', 'x'] (by decide)
  · exact parse_note_spec.2.2.2.2.2.1 [.vnat 1, .vnat 2, .vnat 3] (by decide)

/-- C10: registration discards the name qualifier: registering a
provider under "base:name" mutates the registry exactly as registering
it under "base" would, and the descriptor is subsequently found by
`lookup` under the base key alone (which serves both unnamed and any
name-qualified resolution, since `resolve` always looks up the base
note only). -/
theorem register_ignores_name :
    ∀ (reg : RegState) (cls : ClassId) (pre post : List Char) (p : Desc),
      '\n' ∉ pre → ':' ∉ pre → '\n' ∉ post →
      register reg cls (.vstr (pre ++ ':' :: post)) p = register reg cls (.vstr pre) p
      ∧ ∀ (mro : Mro) (reg' : RegState), mro cls = [cls] →
          register reg cls (.vstr (pre ++ ':' :: post)) p = .ok reg' →
          lookup mro reg' cls (.vstr pre) = .ok p := by
  intro reg cls pre post p hn hc hp
  constructor
  · simp [register, parse_note_split pre post hn hc hp, parse_note_plain pre hn hc]
  · intro mro reg' hmro hreg
    simp only [register, parse_note_split pre post hn hc hp] at hreg
    rw [Except.ok.injEq] at hreg
    subst hreg
    simp [lookup, hmro, List.findSome?_cons, dget_dset_self]

/-- Witness for `register_ignores_name` at concrete inputs. -/
theorem register_ignores_name_witness :
    register emptyReg 0 (.vstr ['k', ':', 'n']) (.fn (fun _ => .ok (.vnat 1))) =
      register emptyReg 0 (.vstr ['k']) (.fn (fun _ => .ok (.vnat 1))) := by
  exact (register_ignores_name emptyReg 0 ['k'] ['n'] (.fn (fun _ => .ok (.vnat 1)))
    (by decide) (by decide) (by decide)).1

/-- C4: registry lookup walks the querying type's hierarchy
most-derived first and returns the first registration; a subtype S
re-registering the same base key shadows T's registration for
S-resolvers while T's own table is untouched (a T-resolver still gets
T's descriptor); and when no class in the chain has a registration the
lookup fails with `LookupError` (the spec's UnresolvedNote). -/
theorem lookup_override :
    ∀ (mro : Mro) (S T : ClassId) (note b nm : PyVal) (d1 d2 : Desc)
      (reg1 reg2 : RegState),
      S ≠ T → mro S = [S, T] → mro T = [T] →
      parse_note note = .ok (b, nm) →
      register emptyReg T note d1 = .ok reg1 →
      register reg1 S note d2 = .ok reg2 →
      lookup mro reg2 S b = .ok d2
      ∧ lookup mro reg2 T b = .ok d1
      ∧ reg2.provider_registry T = reg1.provider_registry T
      ∧ ∀ (reg : RegState) (c : ClassId) (k : PyVal),
          (∀ ci ∈ mro c, ∀ tbl, reg.provider_registry ci = some tbl →
              dget tbl k = none) →
          lookup mro reg c k = .error .lookupError := by
  intro mro S T note b nm d1 d2 reg1 reg2 hST hmroS hmroT hp h1 h2
  simp only [register, hp] at h1 h2
  rw [Except.ok.injEq] at h1 h2
  subst h1
  subst h2
  refine ⟨?_, ?_, ?_, ?_⟩
  · simp [lookup, hmroS, List.findSome?_cons, emptyReg, dset, dget, hST]
  · simp [lookup, hmroT, List.findSome?_cons, emptyReg, dset, dget, Ne.symm hST]
  · simp [emptyReg, Ne.symm hST]
  · intro reg c k hnone
    have : (mro c).findSome?
        (fun ci => (reg.provider_registry ci).bind (fun tbl => dget tbl k)) = none := by
      refine List.findSome?_eq_none_iff.mpr ?_
      intro ci hci
      cases hreg : reg.provider_registry ci with
      | none => simp
      | some tbl => simp [hnone ci hci tbl hreg]
    simp [lookup, this]

/-- A concrete factory descriptor producing the number 1. -/
def fnD1 : Desc := .fn (fun _ => .ok (.vnat 1))

/-- A concrete factory descriptor producing the number 2. -/
def fnD2 : Desc := .fn (fun _ => .ok (.vnat 2))

/-- A concrete hierarchy: class 1 derives from class 0. -/
def mroW : Mro := fun c => if c = 1 then [1, 0] else [0]

/-- The registry after registering `fnD1` under key 7 on class 0. -/
def regW1 : RegState :=
  { provider_registry := fun c => if c = 0 then some [(.vnat 7, fnD1)] else none,
    decorator_registry := fun _ => none }

/-- The registry after additionally registering `fnD2` under key 7 on
the subclass 1. -/
def regW2 : RegState :=
  { provider_registry := fun c =>
      if c = 1 then some [(.vnat 7, fnD2)] else regW1.provider_registry c,
    decorator_registry := fun _ => none }

/-- Witness for `lookup_override` at a concrete two-class hierarchy. -/
theorem lookup_override_witness :
    lookup mroW regW2 1 (.vnat 7) = .ok fnD2 ∧
    lookup mroW regW2 0 (.vnat 7) = .ok fnD1 := by
  have h := lookup_override mroW 1 0 (.vnat 7) (.vnat 7) .vnone fnD1 fnD2 regW1 regW2
    (by decide) rfl rfl rfl rfl rfl
  exact ⟨h.1, h.2.1⟩

/-! ### Caching of successful unnamed resolutions -/

theorem invokeGet_unnamed_caches (st : Injector) (tr : List Event)
    (note basenote : PyVal) (fn : PyFun) (v : PyVal) (st' : Injector)
    (tr' : List Event)
    (h : invokeGet st tr note basenote .vnone fn = ⟨.ok v, st', tr'⟩) :
    dget st'.values basenote = some v := by
  simp only [invokeGet, if_pos rfl] at h
  cases hfn : fn .vnone with
  | ok value =>
      rw [hfn] at h
      cases h
      simp [dget_dset_self]
  | error e =>
      rw [hfn] at h
      cases h

theorem handle_provider_unnamed_caches (st : Injector) (d : Desc)
    (note basenote v : PyVal) (st' : Injector) (tr' : List Event)
    (h : handle_provider st d note basenote .vnone = ⟨.ok v, st', tr'⟩) :
    dget st'.values basenote = some v := by
  cases hinst : dget st.instances basenote with
  | some inst =>
      simp only [handle_provider, hinst] at h
      exact invokeGet_unnamed_caches _ _ _ _ _ _ _ _ h
  | none =>
      cases d with
      | cls mk =>
          simp only [handle_provider, hinst] at h
          exact invokeGet_unnamed_caches _ _ _ _ _ _ _ _ h
      | genfn g =>
          cases hg : GeneratorProvider.init g with
          | error e => simp [handle_provider, hinst, hg] at h
          | ok pv =>
              simp only [handle_provider, hinst, hg, if_pos rfl] at h
              cases h
              simp [dget_dset_self]
      | obj b =>
          simp only [handle_provider, hinst] at h
          exact invokeGet_unnamed_caches _ _ _ _ _ _ _ _ h
      | fn f =>
          simp only [handle_provider, hinst] at h
          exact invokeGet_unnamed_caches _ _ _ _ _ _ _ _ h

theorem resolve_unnamed_caches (mro : Mro) (reg : RegState) (st : Injector)
    (note b v : PyVal) (st' : Injector) (tr : List Event)
    (hp : parse_note note = .ok (b, .vnone))
    (h : resolve mro reg st note = ⟨.ok v, st', tr⟩) :
    dget st'.values b = some v := by
  cases hv : dget st.values b with
  | some w =>
      simp only [resolve, hp, true_and, hv] at h
      rw [if_pos (fun hh => Option.noConfusion hh)] at h
      cases h
      simpa using hv
  | none =>
      simp only [resolve, hp, true_and, hv] at h
      rw [if_neg (fun hh => hh rfl)] at h
      cases hl : lookup mro reg st.cls b with
      | error e => simp [hl] at h
      | ok d =>
          simp only [hl] at h
          exact handle_provider_unnamed_caches _ _ _ _ _ _ _ h

/-- C3: unnamed resolution is idempotent: once an unnamed `resolve` of a
base key has succeeded, a second unnamed `resolve` of the same note on
the resulting state returns the identical cached value, leaves the
state unchanged, and performs no provider call at all (empty event
trace: no re-materialization, no second `get`). -/
theorem resolve_unnamed_idempotent :
    ∀ (mro : Mro) (reg : RegState) (st : Injector) (note b v : PyVal)
      (st' : Injector) (tr : List Event),
      parse_note note = .ok (b, .vnone) →
      resolve mro reg st note = ⟨.ok v, st', tr⟩ →
      resolve mro reg st' note = ⟨.ok v, st', []⟩ := by
  intro mro reg st note b v st' tr hp h
  have hc := resolve_unnamed_caches mro reg st note b v st' tr hp h
  simp only [resolve, hp, true_and, hc]
  rw [if_pos (fun hh => Option.noConfusion hh)]
  rfl

/-- The fresh injector of class 0. -/
def stEmpty : Injector := ⟨0, false, [], []⟩

/-- The injector of class 0 after caching value 1 under key 7. -/
def stV1 : Injector := ⟨0, false, [], [(.vnat 7, .vnat 1)]⟩

/-- Witness for `resolve_unnamed_idempotent` at a concrete registry. -/
theorem resolve_unnamed_idempotent_witness :
    resolve mroW regW1 stEmpty (.vnat 7) =
      ⟨.ok (.vnat 1), stV1, [.getCall (.vnat 7) .vnone]⟩ ∧
    resolve mroW regW1 stV1 (.vnat 7) = ⟨.ok (.vnat 1), stV1, []⟩ := by
  have h1 : resolve mroW regW1 stEmpty (.vnat 7) =
      ⟨.ok (.vnat 1), stV1, [.getCall (.vnat 7) .vnone]⟩ := rfl
  exact ⟨h1, resolve_unnamed_idempotent mroW regW1 stEmpty (.vnat 7) (.vnat 7)
    (.vnat 1) stV1 [.getCall (.vnat 7) .vnone] rfl h1⟩

/-! ### Named resolution leaves the unnamed value cache untouched -/

theorem invokeGet_named_preserves (st : Injector) (tr : List Event)
    (note b nm : PyVal) (fn : PyFun) (hnm : nm ≠ .vnone) :
    (invokeGet st tr note b nm fn).st = st := by
  simp only [invokeGet, if_neg hnm]
  cases fn nm <;> rfl

theorem handle_provider_named_preserves (st : Injector) (d : Desc)
    (note b nm : PyVal) (hnm : nm ≠ .vnone)
    (hgen : ∀ g : GenFun, d = .genfn g → dget st.instances b ≠ none) :
    (handle_provider st d note b nm).st.values = st.values := by
  cases hinst : dget st.instances b with
  | some inst =>
      simp only [handle_provider, hinst]
      rw [invokeGet_named_preserves _ _ _ _ _ _ hnm]
  | none =>
      cases d with
      | cls mk =>
          simp only [handle_provider, hinst]
          rw [invokeGet_named_preserves _ _ _ _ _ _ hnm]
      | genfn g => exact absurd hinst (hgen g rfl)
      | obj bb =>
          simp only [handle_provider, hinst]
          rw [invokeGet_named_preserves _ _ _ _ _ _ hnm]
      | fn f =>
          simp only [handle_provider, hinst]
          rw [invokeGet_named_preserves _ _ _ _ _ _ hnm]

/-- C8: a name-qualified resolution never touches the unnamed value
cache: resolving "base:name" leaves `values` exactly as it was (the
side condition rules out the unreachable situation of a generator
descriptor whose initial value is cached while its provider instance is
not), and an unnamed resolve of the same base afterwards still returns
the previously cached value, untouched. -/
theorem named_resolve_preserves_values :
    ∀ (mro : Mro) (reg : RegState) (st : Injector) (note b nm : PyVal),
      parse_note note = .ok (b, nm) → nm ≠ .vnone →
      (∀ g : GenFun, lookup mro reg st.cls b = .ok (.genfn g) →
          dget st.instances b ≠ none) →
      (resolve mro reg st note).st.values = st.values
      ∧ ∀ (note' v : PyVal), parse_note note' = .ok (b, .vnone) →
          dget st.values b = some v →
          resolve mro reg (resolve mro reg st note).st note' =
            ⟨.ok v, (resolve mro reg st note).st, []⟩ := by
  intro mro reg st note b nm hp hnm hgen
  have hpres : (resolve mro reg st note).st.values = st.values := by
    simp only [resolve, hp]
    rw [if_neg (fun hh => hnm hh.1)]
    cases hl : lookup mro reg st.cls b with
    | error e => rfl
    | ok d =>
        exact handle_provider_named_preserves st d note b nm hnm
          (fun g hdg => hgen g (hdg ▸ hl))
  refine ⟨hpres, ?_⟩
  intro note' v hp' hv
  have hv2 : dget (resolve mro reg st note).st.values b = some v := by
    rw [hpres]; exact hv
  generalize hg2 : (resolve mro reg st note).st = st2 at hv2 ⊢
  simp only [resolve, hp', true_and, hv2]
  rw [if_pos (fun hh => Option.noConfusion hh)]
  rfl

/-- A provider object whose `get` echoes the requested name. -/
def provName : ProvBeh := ⟨fun name => .ok name, .ok ()⟩

/-- A registry binding key "k" on class 0 to the `provName` object. -/
def regW4 : RegState :=
  { provider_registry := fun c =>
      if c = 0 then some [(.vstr ['k'], .obj provName)] else none,
    decorator_registry := fun _ => none }

/-- An injector of class 0 with value 5 cached under key "k". -/
def stK5 : Injector := ⟨0, false, [], [(.vstr ['k'], .vnat 5)]⟩

/-- Witness for `named_resolve_preserves_values` on a concrete state. -/
theorem named_resolve_preserves_values_witness :
    (resolve mroW regW4 stK5 (.vstr ['k', ':', 'n'])).st.values = stK5.values ∧
    resolve mroW regW4 (resolve mroW regW4 stK5 (.vstr ['k', ':', 'n'])).st
        (.vstr ['k']) =
      ⟨.ok (.vnat 5), (resolve mroW regW4 stK5 (.vstr ['k', ':', 'n'])).st, []⟩ := by
  have h := named_resolve_preserves_values mroW regW4 stK5 (.vstr ['k', ':', 'n'])
    (.vstr ['k']) (.vstr ['n']) (by decide) (by decide)
    (by intro g hg; injection hg with hh; exact Desc.noConfusion hh)
  exact ⟨h.1, h.2 (.vstr ['k']) (.vnat 5) (by decide) (by decide)⟩

/-- C6: a generator-backed provider registered without name support:
the first unnamed resolve runs `init` once and returns the value fixed
by the first yield; a second unnamed resolve returns it again with no
event at all (no re-run of `init`); and a name-qualified resolve of the
same key raises `TypeError` ("generator does not support get-by-name",
the spec's UnsupportedNamedAccess) instead of returning a value. -/
theorem generator_no_name_support :
    ∀ (mro : Mro) (reg : RegState) (c : ClassId) (g : GenFun) (v : PyVal)
      (bs ns : List Char) (b0 : Bool),
      mro c = [c] →
      reg.provider_registry c = some [(.vstr bs, .genfn g)] →
      g.support_name = false → g.firstYield = some v →
      '\n' ∉ bs → ':' ∉ bs → '\n' ∉ ns →
      resolve mro reg ⟨c, b0, [], []⟩ (.vstr bs) =
        ⟨.ok v, ⟨c, b0, [(.vstr bs, .gp ⟨g, g.support_name, v⟩)], [(.vstr bs, v)]⟩,
         [.initCall (.vstr bs)]⟩
      ∧ resolve mro reg
          ⟨c, b0, [(.vstr bs, .gp ⟨g, g.support_name, v⟩)], [(.vstr bs, v)]⟩
          (.vstr bs) =
        ⟨.ok v, ⟨c, b0, [(.vstr bs, .gp ⟨g, g.support_name, v⟩)], [(.vstr bs, v)]⟩,
         []⟩
      ∧ resolve mro reg
          ⟨c, b0, [(.vstr bs, .gp ⟨g, g.support_name, v⟩)], [(.vstr bs, v)]⟩
          (.vstr (bs ++ ':' :: ns)) =
        ⟨.error .typeError,
         ⟨c, b0, [(.vstr bs, .gp ⟨g, g.support_name, v⟩)], [(.vstr bs, v)]⟩,
         [.getCall (.vstr bs) (.vstr ns)]⟩ := by
  intro mro reg c g v bs ns b0 hmro hreg hsn hfy hn hc hnn
  have hp1 := parse_note_plain bs hn hc
  have hp2 := parse_note_split bs ns hn hc hnn
  have hlook : lookup mro reg c (.vstr bs) = .ok (.genfn g) := by
    simp [lookup, hmro, List.findSome?_cons, hreg, dget]
  refine ⟨?_, ?_, ?_⟩
  · simp only [resolve, hp1, true_and]
    rw [if_neg (fun hh => hh rfl)]
    simp only [hlook]
    simp [handle_provider, dget, GeneratorProvider.init, hfy, dset]
  · simp only [resolve, hp1, true_and]
    rw [if_pos (fun hh => by simp [dget] at hh)]
    simp [dget]
  · simp only [resolve, hp2]
    rw [if_neg (fun hh => PyVal.noConfusion hh.1)]
    simp only [hlook]
    simp [handle_provider, dget, invokeGet, Inst.getFn, GeneratorProvider.get,
      hsn, reraiseWithNote]

/-- The behaviour of a generator function yielding 42 once, without
name support. -/
def gen42 : GenFun := ⟨false, some (.vnat 42), fun _ => none, true, true⟩

/-- A registry binding key "g" on class 0 to the `gen42` generator
function. -/
def regW5 : RegState :=
  { provider_registry := fun c =>
      if c = 0 then some [(.vstr ['g'], .genfn gen42)] else none,
    decorator_registry := fun _ => none }

/-- Witness for `generator_no_name_support` on a concrete generator. -/
theorem generator_no_name_support_witness :
    resolve mroW regW5 ⟨0, false, [], []⟩ (.vstr ['g']) =
      ⟨.ok (.vnat 42),
       ⟨0, false, [(.vstr ['g'], .gp ⟨gen42, gen42.support_name, .vnat 42⟩)],
        [(.vstr ['g'], .vnat 42)]⟩,
       [.initCall (.vstr ['g'])]⟩ ∧
    resolve mroW regW5
        ⟨0, false, [(.vstr ['g'], .gp ⟨gen42, gen42.support_name, .vnat 42⟩)],
         [(.vstr ['g'], .vnat 42)]⟩
        (.vstr ['g', ':', 'n']) =
      ⟨.error .typeError,
       ⟨0, false, [(.vstr ['g'], .gp ⟨gen42, gen42.support_name, .vnat 42⟩)],
        [(.vstr ['g'], .vnat 42)]⟩,
       [.getCall (.vstr ['g']) (.vstr ['n'])]⟩ := by
  have h := generator_no_name_support mroW regW5 0 gen42 (.vnat 42) ['g'] ['n'] false
    rfl rfl rfl rfl (by decide) (by decide) (by decide)
  exact ⟨h.1, h.2.2⟩

/-! ### `UnsetError` propagation carries the originating note -/

theorem parse_note_not_unset (note m : PyVal) :
    parse_note note ≠ .error (.unsetError m) := by
  intro h
  cases note with
  | vnone => simp [parse_note] at h
  | vnat n => simp [parse_note] at h
  | vstr s =>
      cases hr : reMatchCore s with
      | none => simp [parse_note, hr] at h
      | some bn =>
          obtain ⟨bb, nn⟩ := bn
          cases nn <;> simp [parse_note, hr] at h
  | vtup l =>
      match l with
      | [] => simp [parse_note] at h
      | [a] => simp [parse_note] at h
      | [a, b] => simp [parse_note] at h
      | a :: b :: cc :: t => simp [parse_note] at h

theorem reraiseWithNote_unset (note : PyVal) (e : PyErr) (m : PyVal)
    (h : reraiseWithNote note e = .unsetError m) : m = note := by
  cases e with
  | unsetError n =>
      simp [reraiseWithNote] at h
      exact h.symm
  | typeError => simp [reraiseWithNote] at h
  | valueError => simp [reraiseWithNote] at h
  | attributeError => simp [reraiseWithNote] at h
  | lookupError => simp [reraiseWithNote] at h
  | runtimeError => simp [reraiseWithNote] at h

theorem invokeGet_unset_note (st : Injector) (tr : List Event)
    (note b nm : PyVal) (fn : PyFun) (m : PyVal)
    (h : (invokeGet st tr note b nm fn).res = .error (.unsetError m)) : m = note := by
  by_cases hnm : nm = .vnone
  · subst hnm
    simp only [invokeGet, if_pos rfl] at h
    cases hfn : fn .vnone with
    | ok value => simp [hfn] at h
    | error e =>
        simp [hfn] at h
        exact reraiseWithNote_unset note e m h
  · simp only [invokeGet, if_neg hnm] at h
    cases hfn : fn nm with
    | ok value => simp [hfn] at h
    | error e =>
        simp [hfn] at h
        exact reraiseWithNote_unset note e m h

theorem init_error_runtime (g : GenFun) (e : PyErr)
    (h : GeneratorProvider.init g = .error e) : e = .runtimeError := by
  cases hfy : g.firstYield <;> simp [GeneratorProvider.init, hfy] at h
  · exact h.symm

theorem handle_provider_unset_note (st : Injector) (d : Desc)
    (note b nm : PyVal) (m : PyVal)
    (h : (handle_provider st d note b nm).res = .error (.unsetError m)) :
    m = note := by
  cases hinst : dget st.instances b with
  | some inst =>
      simp only [handle_provider, hinst] at h
      exact invokeGet_unset_note _ _ _ _ _ _ _ h
  | none =>
      cases d with
      | cls mk =>
          simp only [handle_provider, hinst] at h
          exact invokeGet_unset_note _ _ _ _ _ _ _ h
      | genfn g =>
          cases hg : GeneratorProvider.init g with
          | error e =>
              simp only [handle_provider, hinst, hg] at h
              rw [init_error_runtime g e hg] at h
              simp at h
          | ok pv =>
              obtain ⟨p, value⟩ := pv
              simp only [handle_provider, hinst, hg] at h
              by_cases hnm : nm = .vnone
              · rw [if_pos hnm] at h
                simp at h
              · rw [if_neg hnm] at h
                exact invokeGet_unset_note _ _ _ _ _ _ _ h
      | obj bb =>
          simp only [handle_provider, hinst] at h
          exact invokeGet_unset_note _ _ _ _ _ _ _ h
      | fn f =>
          simp only [handle_provider, hinst] at h
          exact invokeGet_unset_note _ _ _ _ _ _ _ h

theorem resolve_unset_note (mro : Mro) (reg : RegState) (st : Injector)
    (note m : PyVal)
    (h : (resolve mro reg st note).res = .error (.unsetError m)) : m = note := by
  cases hp : parse_note note with
  | error e =>
      simp only [resolve, hp] at h
      rw [Except.error.injEq] at h
      exact absurd (h ▸ hp) (parse_note_not_unset note m)
  | ok bn =>
      obtain ⟨b, nm⟩ := bn
      simp only [resolve, hp] at h
      by_cases hcond : nm = .vnone ∧ dget st.values b ≠ none
      · rw [if_pos hcond] at h
        simp at h
      · rw [if_neg hcond] at h
        cases hl : lookup mro reg st.cls b with
        | error e => simp [hl] at h
        | ok d =>
            simp only [hl] at h
            exact handle_provider_unset_note _ _ _ _ _ _ h

/-- C7: fulfillment policy for unset dependencies: (1) any resolution
surfacing an `UnsetError` carries the originating note on the error;
(2) a failing positional note aborts the whole `fulfill` with that
error (eager, propagating); (3) a keyword note whose resolution raises
`UnsetError` is silently omitted from the bound keyword arguments and
fulfillment continues; (4) a keyword note that resolves successfully is
bound into the keyword arguments. -/
theorem fulfill_unset_policy :
    ∀ (mro : Mro) (reg : RegState),
      (∀ (st : Injector) (note m : PyVal),
          (resolve mro reg st note).res = .error (.unsetError m) → m = note)
      ∧ (∀ (st : Injector) (n : PyVal) (rest : List PyVal)
            (kw : List (String × PyVal)) (e : PyErr) (st' : Injector)
            (tr : List Event),
          resolve mro reg st n = ⟨.error e, st', tr⟩ →
          fulfill mro reg st (n :: rest) kw = ⟨.error e, st', tr⟩)
      ∧ (∀ (st : Injector) (acc : List (String × PyVal)) (arg : String)
            (k : PyVal) (rest : List (String × PyVal)) (m : PyVal)
            (st' : Injector) (tr : List Event),
          resolve mro reg st k = ⟨.error (.unsetError m), st', tr⟩ →
          fulfill_kwargs mro reg st acc ((arg, k) :: rest) =
            ⟨(fulfill_kwargs mro reg st' acc rest).res,
             (fulfill_kwargs mro reg st' acc rest).st,
             tr ++ (fulfill_kwargs mro reg st' acc rest).tr⟩)
      ∧ (∀ (st : Injector) (acc : List (String × PyVal)) (arg : String)
            (k : PyVal) (rest : List (String × PyVal)) (v : PyVal)
            (st' : Injector) (tr : List Event),
          resolve mro reg st k = ⟨.ok v, st', tr⟩ →
          fulfill_kwargs mro reg st acc ((arg, k) :: rest) =
            ⟨(fulfill_kwargs mro reg st' (dset acc arg v) rest).res,
             (fulfill_kwargs mro reg st' (dset acc arg v) rest).st,
             tr ++ (fulfill_kwargs mro reg st' (dset acc arg v) rest).tr⟩) := by
  intro mro reg
  refine ⟨fun st note m => resolve_unset_note mro reg st note m, ?_, ?_, ?_⟩
  · intro st n rest kw e st' tr hres
    simp only [fulfill, resolve_args, hres]
  · intro st acc arg k rest m st' tr hres
    simp only [fulfill_kwargs, hres]
  · intro st acc arg k rest v st' tr hres
    simp only [fulfill_kwargs, hres]

/-- A factory descriptor that always raises a bare `UnsetError`. -/
def unsetFn : Desc := .fn (fun _ => .error (.unsetError .vnone))

/-- A registry binding "e" to the always-unset factory and "w" to
`fnD1` on class 0. -/
def regW6 : RegState :=
  { provider_registry := fun c =>
      if c = 0 then some [(.vstr ['e'], unsetFn), (.vstr ['w'], fnD1)] else none,
    decorator_registry := fun _ => none }

/-- Witness for `fulfill_unset_policy` on concrete notes: a positional
unset note aborts fulfillment with the note attached; the same note in
keyword position is silently omitted; a resolvable keyword note is
bound. -/
theorem fulfill_unset_policy_witness :
    fulfill mroW regW6 stEmpty [.vstr ['e']] [] =
      ⟨.error (.unsetError (.vstr ['e'])), stEmpty,
       [.getCall (.vstr ['e']) .vnone]⟩ ∧
    fulfill_kwargs mroW regW6 stEmpty [] [("a", .vstr ['e'])] =
      ⟨.ok [], stEmpty, [.getCall (.vstr ['e']) .vnone]⟩ ∧
    fulfill_kwargs mroW regW6 stEmpty [] [("b", .vstr ['w'])] =
      ⟨.ok [("b", .vnat 1)], ⟨0, false, [], [(.vstr ['w'], .vnat 1)]⟩,
       [.getCall (.vstr ['w']) .vnone]⟩ := by
  have h := fulfill_unset_policy mroW regW6
  refine ⟨?_, ?_, ?_⟩
  · exact h.2.1 stEmpty (.vstr ['e']) [] [] (.unsetError (.vstr ['e'])) stEmpty
      [.getCall (.vstr ['e']) .vnone] rfl
  · exact (h.2.2.1 stEmpty [] "a" (.vstr ['e']) [] (.vstr ['e']) stEmpty
      [.getCall (.vstr ['e']) .vnone] rfl).trans rfl
  · exact (h.2.2.2 stEmpty [] "b" (.vstr ['w']) [] (.vnat 1)
      ⟨0, false, [], [(.vstr ['w'], .vnat 1)]⟩
      [.getCall (.vstr ['w']) .vnone] rfl).trans rfl

/-! ### Close semantics -/

/-- A provider object whose `close` succeeds. -/
def provOk : ProvBeh := ⟨fun _ => .ok (.vnat 5), .ok ()⟩

/-- A provider object whose `close` raises `RuntimeError`. -/
def provBad : ProvBeh := ⟨fun _ => .ok .vnone, .error .runtimeError⟩

/-- An injector with two materialized providers, the first of which
fails to close. -/
def stC1 : Injector :=
  ⟨0, false, [(.vnat 1, .ob provBad), (.vnat 2, .ob provOk)], []⟩

/-- An injector with one well-behaved materialized provider and a
cached unnamed value under key 3. -/
def stC2 : Injector := ⟨0, false, [(.vnat 3, .ob provOk)], [(.vnat 3, .vnat 5)]⟩

/-- `stC2` after a successful close. -/
def stC2c : Injector := ⟨0, true, [(.vnat 3, .ob provOk)], [(.vnat 3, .vnat 5)]⟩

theorem close_loop_ok (st : Injector) (l : List (PyVal × Inst)) :
    ∀ tr : List Event, (∀ p ∈ l, Inst.close p.2 = .ok ()) →
    close_loop st l tr =
      ⟨.ok (), { st with closed := true },
       tr ++ l.map (fun p => .closeCall p.1)⟩ := by
  induction l with
  | nil => intro tr h; simp [close_loop]
  | cons p rest ih =>
      intro tr h
      obtain ⟨k, i⟩ := p
      have hk : Inst.close i = .ok () := h (k, i) (List.mem_cons_self _ _)
      simp only [close_loop, hk]
      rw [ih (tr ++ [Event.closeCall k]) (fun q hq => h q (List.mem_cons_of_mem _ hq))]
      simp

theorem close_loop_error (st : Injector) (pre : List (PyVal × Inst)) (k : PyVal)
    (i : Inst) (post : List (PyVal × Inst)) (e : PyErr) :
    ∀ tr : List Event, (∀ p ∈ pre, Inst.close p.2 = .ok ()) →
    Inst.close i = .error e →
    close_loop st (pre ++ (k, i) :: post) tr =
      ⟨.error e, st, tr ++ pre.map (fun p => .closeCall p.1) ++ [.closeCall k]⟩ := by
  induction pre with
  | nil =>
      intro tr hok hi
      simp only [List.nil_append, close_loop, hi]
      simp
  | cons q pre' ih =>
      intro tr hok hi
      obtain ⟨kq, iq⟩ := q
      have hq : Inst.close iq = .ok () := hok (kq, iq) (List.mem_cons_self _ _)
      rw [List.cons_append]
      simp only [close_loop, hq]
      rw [ih (tr ++ [Event.closeCall kq])
        (fun r hr => hok r (List.mem_cons_of_mem _ hr)) hi]
      simp

/-- C1 (counterexample): with two materialized providers where the
first one's `close` raises, `Injector.close` propagates the error at
once: the second provider never receives a `close` call and the failure
is not collected (the `closed` flag stays false and the loop stops). -/
theorem close_error_claim_cex :
    Injector.close stC1 = ⟨.error .runtimeError, stC1, [.closeCall (.vnat 1)]⟩ ∧
    Event.closeCall (.vnat 2) ∉ (Injector.close stC1).tr := by
  constructor
  · rfl
  · rw [show (Injector.close stC1).tr = [.closeCall (.vnat 1)] from rfl]
    decide

/-- C1 (amended): if a materialized provider's `close` raises, the
exception propagates immediately: providers materialized before it were
each closed once, the failing provider received its (failing) close
call, providers after it receive no close call at all, the error is not
collected, and the injector state (including the `closed` flag) is left
unchanged. -/
theorem close_error_aborts :
    ∀ (st : Injector) (pre : List (PyVal × Inst)) (k : PyVal) (i : Inst)
      (post : List (PyVal × Inst)) (e : PyErr),
      st.closed = false →
      st.instances = pre ++ (k, i) :: post →
      (∀ p ∈ pre, Inst.close p.2 = .ok ()) →
      Inst.close i = .error e →
      Injector.close st =
        ⟨.error e, st, pre.map (fun p => .closeCall p.1) ++ [.closeCall k]⟩ := by
  intro st pre k i post e hcl hinst hok hi
  simp only [Injector.close, hcl]
  rw [hinst, close_loop_error st pre k i post e [] hok hi]
  simp

/-- Witness for `close_error_aborts` on the concrete failing state. -/
theorem close_error_aborts_witness :
    Injector.close stC1 =
      ⟨.error .runtimeError, stC1, [.closeCall (.vnat 1)]⟩ := by
  have h := close_error_aborts stC1 [] (.vnat 1) (.ob provBad)
    [(.vnat 2, .ob provOk)] .runtimeError rfl rfl
    (by intro p hp; cases hp) rfl
  simpa using h

/-- C2 (counterexample): the claim that after a successful `close` "any
subsequent resolve(note) call fails rather than returning a value" is
false: `resolve` never checks the `closed` flag, so after closing, a
cached unnamed value is still returned successfully. -/
theorem resolve_after_close_cex :
    Injector.close stC2 = ⟨.ok (), stC2c, [.closeCall (.vnat 3)]⟩ ∧
    stC2c.closed = true ∧
    resolve mroW emptyReg stC2c (.vnat 3) = ⟨.ok (.vnat 5), stC2c, []⟩ := by
  exact ⟨rfl, rfl, rfl⟩

/-- C2 (amended): when every materialized provider's close succeeds,
`close()` closes each of them exactly once, in the order they were
cached, and sets `closed`; a second `close()` raises `RuntimeError`
(the spec's AlreadyClosed); but `resolve` is not guarded by the
`closed` flag: a subsequent unnamed resolve of a cached base key still
returns the cached value instead of failing. -/
theorem close_success_spec :
    ∀ st : Injector,
      st.closed = false →
      (∀ p ∈ st.instances, Inst.close p.2 = .ok ()) →
      Injector.close st =
        ⟨.ok (), { st with closed := true },
         st.instances.map (fun p => .closeCall p.1)⟩
      ∧ Injector.close { st with closed := true } =
          ⟨.error .runtimeError, { st with closed := true }, []⟩
      ∧ ∀ (mro : Mro) (reg : RegState) (note b v : PyVal),
          parse_note note = .ok (b, .vnone) →
          dget st.values b = some v →
          resolve mro reg { st with closed := true } note =
            ⟨.ok v, { st with closed := true }, []⟩ := by
  intro st hcl hok
  refine ⟨?_, ?_, ?_⟩
  · simp only [Injector.close, hcl]
    rw [close_loop_ok st st.instances [] hok]
    simp
  · simp [Injector.close]
  · intro mro reg note b v hp hv
    have hv' : dget ({ st with closed := true } : Injector).values b = some v := hv
    simp only [resolve, hp, true_and, hv']
    rw [if_pos (fun hh => Option.noConfusion hh)]
    rfl

/-- Witness for `close_success_spec` on the concrete state `stC2`. -/
theorem close_success_spec_witness :
    Injector.close stC2 = ⟨.ok (), stC2c, [.closeCall (.vnat 3)]⟩ ∧
    Injector.close stC2c = ⟨.error .runtimeError, stC2c, []⟩ ∧
    resolve mroW emptyReg stC2c (.vnat 3) = ⟨.ok (.vnat 5), stC2c, []⟩ := by
  have h := close_success_spec stC2 rfl
    (by intro p hp; simp [stC2] at hp; subst hp; rfl)
  exact ⟨h.1, h.2.1, h.2.2 mroW emptyReg (.vnat 3) (.vnat 3) (.vnat 5) rfl rfl⟩

/-! ### Decoration ordering and modes -/

/-- The effect of one decoration step per its mode, as the spec states
it: a decorate-mode step's return value replaces the value, a
configure-mode step's return value is discarded. -/
def applyMode : Mode → Step → PyVal → PyVal
  | .decorate, f, v => f v
  | .configure, _, v => v

/-- The registry state produced by a successful `decorate` call, as a
standalone function (used to invert `decorate` equations). -/
def decorate_result (reg : RegState) (cls : ClassId) (b nm : PyVal)
    (mode : Mode) (fn : Step) : RegState :=
  { reg with decorator_registry := fun c =>
      if c = cls then some (dset ((reg.decorator_registry cls).getD []) (b, nm) ((dget ((reg.decorator_registry cls).getD []) (b, nm)).getD [] ++ [(mode, fn)]))
      else reg.decorator_registry c }

theorem decorate_ok_inv (reg : RegState) (cls : ClassId) (note b nm : PyVal)
    (mode : Mode) (fn : Step) (reg' : RegState)
    (hp : parse_note note = .ok (b, nm))
    (h : decorate reg cls note mode fn = .ok reg') :
    reg' = decorate_result reg cls b nm mode fn := by
  simp only [decorate, hp] at h
  split at h
  · cases h
  · rw [Except.ok.injEq] at h
    exact h.symm

/-- C5: decoration entries are applied root-type-first, then toward the
most-derived type, within one node in registration order, each step
chained on the prior result: with d1 and d2 registered in that order on
the ancestor T and d3 on the subtype S, resolution against S yields the
decorator list [d1, d2, d3], and applying them folds the value through
each step, where a decorate-mode step's return value replaces the
current value and a configure-mode step's return value is discarded. -/
theorem decorators_order_modes :
    ∀ (mro : Mro) (S T : ClassId) (note b nm : PyVal) (m1 m2 m3 : Mode)
      (f1 f2 f3 : Step) (reg1 reg2 reg3 : RegState) (v : PyVal),
      S ≠ T → mro S = [S, T] →
      parse_note note = .ok (b, nm) →
      decorate emptyReg T note m1 f1 = .ok reg1 →
      decorate reg1 T note m2 f2 = .ok reg2 →
      decorate reg2 S note m3 f3 = .ok reg3 →
      decorators_iter mro reg3 S b nm = [(m1, f1), (m2, f2), (m3, f3)]
      ∧ decorators_apply mro reg3 S b nm v =
          applyMode m3 f3 (applyMode m2 f2 (applyMode m1 f1 v)) := by
  intro mro S T note b nm m1 m2 m3 f1 f2 f3 reg1 reg2 reg3 v hST hmroS hp h1 h2 h3
  have e1 := decorate_ok_inv emptyReg T note b nm m1 f1 reg1 hp h1
  have e2 := decorate_ok_inv reg1 T note b nm m2 f2 reg2 hp h2
  have e3 := decorate_ok_inv reg2 S note b nm m3 f3 reg3 hp h3
  have hiter : decorators_iter mro reg3 S b nm = [(m1, f1), (m2, f2), (m3, f3)] := by
    simp [decorators_iter, hmroS, e3, e2, e1, decorate_result, hST, Ne.symm hST,
      emptyReg, dset, dget]
  refine ⟨hiter, ?_⟩
  simp only [decorators_apply, hiter]
  cases m1 <;> cases m2 <;> cases m3 <;> rfl

/-- A decoration step wrapping the value in a singleton tuple. -/
def d1f : Step := fun v => .vtup [v]

/-- A configuration step (its return value gets discarded anyway). -/
def d2f : Step := fun v => v

/-- A decoration step pairing the value with itself. -/
def d3f : Step := fun v => .vtup [v, v]

/-- Registry after registering `d1f` (decorate) on the base class 0. -/
def regD1 : RegState := decorate_result emptyReg 0 (.vnat 7) .vnone .decorate d1f

/-- Registry after additionally registering `d2f` (configure) on 0. -/
def regD2 : RegState := decorate_result regD1 0 (.vnat 7) .vnone .configure d2f

/-- Registry after additionally registering `d3f` (decorate) on the
subclass 1. -/
def regD3 : RegState := decorate_result regD2 1 (.vnat 7) .vnone .decorate d3f

/-- Witness for `decorators_order_modes` on concrete steps: d1 then d2
(ancestor, in registration order) then d3 (subtype); the configure step
d2 leaves the value unchanged. -/
theorem decorators_order_modes_witness :
    decorators_iter mroW regD3 1 (.vnat 7) .vnone =
      [(.decorate, d1f), (.configure, d2f), (.decorate, d3f)] ∧
    decorators_apply mroW regD3 1 (.vnat 7) .vnone (.vnat 0) =
      .vtup [.vtup [.vnat 0], .vtup [.vnat 0]] := by
  have h := decorators_order_modes mroW 1 0 (.vnat 7) (.vnat 7) .vnone
    .decorate .configure .decorate d1f d2f d3f regD1 regD2 regD3 (.vnat 0)
    (by decide) rfl rfl rfl rfl rfl
  exact ⟨h.1, h.2⟩

end Jeni
